import Mathlib

/-!
Verification of the release-notification scanner
(`src/slack_github_releases.py`) against its specification.

Strings are modelled as `List Char` (`Str`).  Each Python regular
expression used by the script is embedded as a dedicated search
function with `re.search` semantics (leftmost match, greedy
quantifiers); for every pattern in the script the greedy/backtracking
behaviour is deterministic because each repeated character class is
disjoint from the character that must follow it, so maximal munch is
faithful.  Timestamps (Python `float(message["ts"])` and the
`datetime` values derived from them) are modelled as rationals;
`datetime` comparison in Python agrees with comparison of the
underlying timestamps.
-/

abbrev Str := List Char

/-- Character class `[a-zA-Z0-9_-]` (owner part of a repository). -/
def isOwnerChar (c : Char) : Bool := c.isAlphanum || c = '_' || c = '-'

/-- Character class `[a-zA-Z0-9_.-]` (name part of a repository, tags). -/
def isNameChar (c : Char) : Bool := isOwnerChar c || c = '.'

/-- Python regex `\w`: a word character (ASCII scope). -/
def isWordChar (c : Char) : Bool := c.isAlphanum || c = '_'

/-- Python regex `\s` and `str.strip` whitespace (ASCII scope). -/
def isPySpace (c : Char) : Bool :=
  c = ' ' || c = '\t' || c = '\n' || c = '\r' || c = '\x0b' || c = '\x0c'

/-- Python `str.strip()`: drop whitespace from both ends. -/
def pyStrip (s : Str) : Str :=
  ((s.dropWhile isPySpace).reverse.dropWhile isPySpace).reverse

/-- Python substring test `needle in hay`. -/
def strContains (needle : Str) : Str → Bool
  | [] => needle.isPrefixOf []
  | c :: t => needle.isPrefixOf (c :: t) || strContains needle t

/-- Python `s.split(c)[0]`: the part of `s` before the first occurrence of `c`. -/
def takeUntil (c : Char) (s : Str) : Str := s.takeWhile (fun x => x ≠ c)

/-- Python `s.split(c)` (single-character separator). -/
def splitChar (c : Char) : Str → List Str
  | [] => [[]]
  | x :: xs =>
    if x = c then [] :: splitChar c xs
    else
      match splitChar c xs with
      | [] => [[x]]
      | g :: gs => (x :: g) :: gs

/-- Python `sep.join(parts)`. -/
def joinWith (sep : Str) : List Str → Str
  | [] => []
  | [x] => x
  | x :: y :: xs => x ++ sep ++ joinWith sep (y :: xs)

/-! ## The regular expressions of `parse_release_notifications` -/

/-- Tail of `repo_pattern` after the `in`/`for` keyword:
`\s+([a-zA-Z0-9_-]+/[a-zA-Z0-9_.-]+)`, returning the captured group. -/
def matchRepoTail (s : Str) : Option Str :=
  let sp := s.takeWhile isPySpace
  if sp = [] then none else
  let s2 := s.drop sp.length
  let o := s2.takeWhile isOwnerChar
  if o = [] then none else
  match s2.drop o.length with
  | '/' :: s3 =>
    let n := s3.takeWhile isNameChar
    if n = [] then none else some (o ++ '/' :: n)
  | _ => none

/-- One attempt of `repo_pattern = (?:in|for)\s+([a-zA-Z0-9_-]+/[a-zA-Z0-9_.-]+)`
at the current position (the `in` alternative is tried first, as in Python;
the two alternatives start with different characters, so at most one applies). -/
def matchRepoAt (s : Str) : Option Str :=
  match s with
  | 'i' :: 'n' :: rest => matchRepoTail rest
  | 'f' :: 'o' :: 'r' :: rest => matchRepoTail rest
  | _ => none

/-- Leftmost search for `repo_pattern` (`re.search`), group 1. -/
def findRepo : Str → Option Str
  | [] => none
  | c :: cs =>
    match matchRepoAt (c :: cs) with
    | some g => some g
    | none => findRepo cs

/-- Word boundary `\b` between a previous character and a next character
(`none` denotes the border of the string). -/
def boundary (pc nc : Option Char) : Bool :=
  (match pc with | some c => isWordChar c | none => false) !=
  (match nc with | some c => isWordChar c | none => false)

/-- True when the next character cannot continue a word (used for a
trailing `\b` after a word character). -/
def noWordAhead : Str → Bool
  | [] => true
  | c :: _ => !(isWordChar c)

/-- Core `\d+\.\d+\.\d+` of `version_pattern`; returns the matched text and
the remainder.  Digits and `.` are disjoint, so greedy matching is maximal
munch. -/
def matchVerCore (s : Str) : Option (Str × Str) :=
  let d1 := s.takeWhile Char.isDigit
  if d1 = [] then none else
  match s.drop d1.length with
  | '.' :: s2 =>
    let d2 := s2.takeWhile Char.isDigit
    if d2 = [] then none else
    match s2.drop d2.length with
    | '.' :: s3 =>
      let d3 := s3.takeWhile Char.isDigit
      if d3 = [] then none else
      some (d1 ++ '.' :: d2 ++ '.' :: d3, s3.drop d3.length)
    | _ => none
  | _ => none

/-- Optional suffix `(?:[.-][a-zA-Z0-9]+)?` of `version_pattern` followed by
the trailing `\b`.  The greedy suffix is tried first; when its trailing
boundary fails the suffix is dropped (shorter non-empty alphanumeric runs
would end before an alphanumeric character, where `\b` also fails, exactly
as in Python's backtracking). -/
def matchVerSuffix (core : Str) (rest : Str) : Option Str :=
  match rest with
  | [] => some core
  | c :: r2 =>
    if c = '.' || c = '-' then
      let a := r2.takeWhile Char.isAlphanum
      if a ≠ [] && noWordAhead (r2.drop a.length) then some (core ++ c :: a)
      else some core
    else if noWordAhead (c :: r2) then some core else none

/-- One attempt of
`version_pattern = \b(v?\d+\.\d+\.\d+(?:[.-][a-zA-Z0-9]+)?)\b` at the
current position, `pc` being the preceding character.  When the optional
`v` is consumed and the digit core fails, the `v`-less alternative needs a
digit at the same position and also fails. -/
def matchVersionAt (pc : Option Char) (s : Str) : Option Str :=
  if boundary pc s.head? then
    match s with
    | 'v' :: s1 =>
      match matchVerCore s1 with
      | some (core, rest) => matchVerSuffix ('v' :: core) rest
      | none => none
    | _ =>
      match matchVerCore s with
      | some (core, rest) => matchVerSuffix core rest
      | none => none
  else none

/-- Leftmost search for `version_pattern` (`re.search`), group 1. -/
def findVersionAux : Option Char → Str → Option Str
  | _, [] => none
  | pc, c :: cs =>
    match matchVersionAt pc (c :: cs) with
    | some g => some g
    | none => findVersionAux (some c) cs

def findVersion (s : Str) : Option Str := findVersionAux none s

/-- Literal prefix of `url_pattern`. -/
def ghUrlPre : Str := "https://github.com/".toList

/-- Literal mid part of `url_pattern`. -/
def relTagLit : Str := "/releases/tag/".toList

/-- Literal prefix of the repository-from-URL and of the notes-URL patterns. -/
def ghDomLit : Str := "github.com/".toList

/-- One attempt of
`url_pattern = https://github\.com/[a-zA-Z0-9_-]+/[a-zA-Z0-9_.-]+/releases/tag/[a-zA-Z0-9_.-]+`
at the current position, returning the whole match (group 0). -/
def matchUrlAt (s : Str) : Option Str :=
  if ghUrlPre.isPrefixOf s then
    let s1 := s.drop ghUrlPre.length
    let o := s1.takeWhile isOwnerChar
    if o = [] then none else
    match s1.drop o.length with
    | '/' :: s3 =>
      let n := s3.takeWhile isNameChar
      if n = [] then none else
      let s4 := s3.drop n.length
      if relTagLit.isPrefixOf s4 then
        let t := (s4.drop relTagLit.length).takeWhile isNameChar
        if t = [] then none else
        some (ghUrlPre ++ o ++ '/' :: n ++ relTagLit ++ t)
      else none
    | _ => none
  else none

/-- Leftmost search for `url_pattern` (`re.search`), group 0. -/
def findUrl : Str → Option Str
  | [] => none
  | c :: cs =>
    match matchUrlAt (c :: cs) with
    | some g => some g
    | none => findUrl cs

/-- One attempt of `github\.com/([a-zA-Z0-9_-]+/[a-zA-Z0-9_.-]+)` (used to
pull the repository out of a matched release URL), group 1. -/
def matchRepoUrlAt (s : Str) : Option Str :=
  if ghDomLit.isPrefixOf s then
    let s1 := s.drop ghDomLit.length
    let o := s1.takeWhile isOwnerChar
    if o = [] then none else
    match s1.drop o.length with
    | '/' :: s3 =>
      let n := s3.takeWhile isNameChar
      if n = [] then none else some (o ++ '/' :: n)
    | _ => none
  else none

/-- Leftmost search for the repository-from-URL pattern, group 1. -/
def findRepoUrl : Str → Option Str
  | [] => none
  | c :: cs =>
    match matchRepoUrlAt (c :: cs) with
    | some g => some g
    | none => findRepoUrl cs

/-! ## Data model -/

/-- Slack attachment; absent fields read as `""` via `attachment.get(k, "")`. -/
structure Attachment where
  fallback : Str := []
  title : Str := []
  text : Str := []
  title_link : Str := []
deriving DecidableEq

/-- Slack block; `text` is `some t` when the block carries a (truthy) text
object whose inner text is `t`. -/
structure Block where
  type : Str := []
  text : Option Str := none
deriving DecidableEq

/-- Slack message (the fields the script reads).  `ts` is the numeric value
of the timestamp string, `none` when the field is missing. -/
structure Message where
  ts : Option ℚ := none
  attachments : List Attachment := []
  blocks : List Block := []
deriving DecidableEq

/-- One extracted release record.  `release_date` is the message timestamp
(Python keeps a `datetime`; comparison and formatting only depend on this
number).  `notes = none` models the dictionary lacking the `notes` key;
`notes = some v` models `release["notes"] = v` with `v` optional. -/
structure Release where
  repository : Str
  version : Str
  release_date : ℚ
  url : Option Str
  notes : Option (Option Str) := none
deriving DecidableEq

/-! ## The parser (`parse_release_notifications`) -/

/-- Classification: some attachment fallback contains `"New release"`
(lines 100-106 of the script). -/
def hasRelease (m : Message) : Bool :=
  m.attachments.any (fun a => strContains ("New release".toList) a.fallback)

/-- Search text of one attachment: `f"{fallback} {title} {text}"`. -/
def searchText (a : Attachment) : Str :=
  a.fallback ++ ' ' :: a.title ++ ' ' :: a.text

/-- Cleaning of a title link: `title_link.split('|')[0].split('>')[0].strip()`. -/
def cleanTitleLink (l : Str) : Str := pyStrip (takeUntil '>' (takeUntil '|' l))

/-- Python `if not m: m = ...` on a match slot: keep the first success. -/
def firstSome (a b : Option Str) : Option Str :=
  match a with
  | some g => some g
  | none => b

/-- One iteration of the attachment loop (lines 128-149): each of the three
match slots is filled on first success, and the title link is consulted for
the URL only while the URL slot is still empty. -/
def stepAttach (st : Option Str × Option Str × Option Str) (a : Attachment) :
    Option Str × Option Str × Option Str :=
  let t := searchText a
  (firstSome st.1 (findRepo t),
   firstSome st.2.1 (findVersion t),
   firstSome (firstSome st.2.2 (findUrl t))
     (if !(a.title_link = []) &&
          strContains ("github.com".toList) a.title_link &&
          strContains ("/releases/".toList) a.title_link then
        findUrl (cleanTitleLink a.title_link)
      else none))

/-- One iteration of the block loop (lines 152-161): only `section` blocks
with a text object contribute. -/
def stepBlock (st : Option Str × Option Str × Option Str) (b : Block) :
    Option Str × Option Str × Option Str :=
  if b.type = "section".toList then
    match b.text with
    | some t =>
      (firstSome st.1 (findRepo t),
       firstSome st.2.1 (findVersion t),
       firstSome st.2.2 (findUrl t))
    | none => st
  else st

/-- Matches collected for one message: the attachment loop runs first, then
the block loop. -/
def extractMatches (m : Message) : Option Str × Option Str × Option Str :=
  m.blocks.foldl stepBlock (m.attachments.foldl stepAttach (none, none, none))

/-- Record assembly for one qualifying message (lines 112-180): repository
falls back from the direct match to the matched URL, then to `"Unknown"`;
version falls back to `"Unknown"`; a missing `ts` reads as `0`. -/
def extractRelease (m : Message) : Release :=
  let st := extractMatches m
  let repository : Option Str :=
    match st.1 with
    | some g => some g
    | none =>
      match st.2.2 with
      | some u => findRepoUrl u
      | none => none
  { repository := repository.getD ("Unknown".toList)
    version := (st.2.1).getD ("Unknown".toList)
    release_date := m.ts.getD 0
    url := st.2.2
    notes := none }

/-- Order used by `releases.sort(key=..., reverse=True)`: `a` may precede
`b` when the date of `b` is not larger. -/
def releaseGE (a b : Release) : Prop := b.release_date ≤ a.release_date

instance : DecidableRel releaseGE := fun a b =>
  inferInstanceAs (Decidable (b.release_date ≤ a.release_date))

instance : IsTotal Release releaseGE :=
  ⟨fun a b => le_total b.release_date a.release_date⟩

instance : IsTrans Release releaseGE :=
  ⟨fun _ _ _ h1 h2 => le_trans h2 h1⟩

/-- Lines 94-186: keep the qualifying messages, extract one record each,
then sort by date, newest first.  Python `list.sort` is stable;
`List.insertionSort` with `releaseGE` is the (unique) stable descending
sort, hence extensionally the same function. -/
def parse_release_notifications (msgs : List Message) : List Release :=
  ((msgs.filter (fun m => hasRelease m)).map extractRelease).insertionSort releaseGE

/-! ## The notes enricher (`fetch_release_notes`) -/

/-- Outcome of `requests.get(...)` combined with `response.json()`:
`failure` covers a timeout or any raised exception, `response` carries the
status code and the `body` field of the JSON payload (`""` when missing or
empty). -/
inductive HttpResult where
  | failure : HttpResult
  | response (status : Nat) (body : Str) : HttpResult
deriving DecidableEq

/-- One attempt of `github\.com/([^/]+)/([^/]+)/releases/tag/(.+)` at the
current position.  `[^/]+` is greedy but must be followed by `/`, so it
takes exactly the run up to the next slash; `.+` is greedy and stops at a
newline (Python `.` does not match `\n`). -/
def matchNotesUrlAt (s : Str) : Option (Str × Str × Str) :=
  if ghDomLit.isPrefixOf s then
    let s1 := s.drop ghDomLit.length
    let o := s1.takeWhile (fun c => c ≠ '/')
    if o = [] then none else
    match s1.drop o.length with
    | '/' :: s2 =>
      let r := s2.takeWhile (fun c => c ≠ '/')
      if r = [] then none else
      let s3 := s2.drop r.length
      if relTagLit.isPrefixOf s3 then
        let t := (s3.drop relTagLit.length).takeWhile (fun c => c ≠ '\n')
        if t = [] then none else some (o, r, t)
      else none
    | _ => none
  else none

/-- Leftmost search for the notes-URL pattern (`re.search`), groups 1-3. -/
def findNotesUrl : Str → Option (Str × Str × Str)
  | [] => none
  | c :: cs =>
    match matchNotesUrlAt (c :: cs) with
    | some m => some m
    | none => findNotesUrl cs

/-- Tag clean-up (line 212): `tag.split('?')[0].split('#')[0].strip()`. -/
def cleanTag (t : Str) : Str := pyStrip (takeUntil '#' (takeUntil '?' t))

/-- API endpoint construction (line 214). -/
def api_url (o r t : Str) : Str :=
  "https://api.github.com/repos/".toList ++ o ++ '/' :: r ++
    "/releases/tags/".toList ++ cleanTag t

/-- Lines 188-238.  `http` abstracts the HTTP round trip keyed by the
requested endpoint.  The Python function catches every exception and
returns `None`, so the model is a total function into `Option`. -/
def fetch_release_notes (http : Str → HttpResult) (url : Str) : Option Str :=
  if url = [] then none
  else
    match findNotesUrl url with
    | none => none
    | some (o, r, t) =>
      match http (api_url o r t) with
      | .failure => none
      | .response status body =>
        if status = 200 then (if body ≠ [] then some body else none)
        else none

/-- Enrichment loop of `scan_releases` (lines 258-271): when requested and
some release exists, every record gets a `notes` key; records without a URL
get `None`, the others the fetch result. -/
def scan_enrich (http : Str → HttpResult) (fetch_notes : Bool)
    (releases : List Release) : List Release :=
  if fetch_notes && !(releases = []) then
    releases.map (fun r =>
      match r.url with
      | some u => { r with notes := some (fetch_release_notes http u) }
      | none => { r with notes := some none })
  else releases

/-- Lines 240-271 modulo I/O: parse the fetched messages, then enrich. -/
def scan_releases (http : Str → HttpResult) (fetch_notes : Bool)
    (msgs : List Message) : List Release :=
  scan_enrich http fetch_notes (parse_release_notifications msgs)

/-! ## Date formatting -/

/-- Floor of a rational (`q.den` is positive, so flooring the integer
division of numerator by denominator is the floor of `q`). -/
def ratFloor (q : ℚ) : Int := Int.fdiv q.num q.den

/-- Day number of a timestamp (days since the Unix epoch, floored). -/
def tsDays (ts : ℚ) : Int := Int.fdiv (ratFloor ts) 86400

/-- Second of day of a timestamp (integer seconds). -/
def tsSecOfDay (ts : ℚ) : Nat := (Int.fmod (ratFloor ts) 86400).toNat

/-- Proleptic Gregorian calendar date of a day number (the civil-from-days
algorithm used by C libraries; `datetime.fromtimestamp` with a UTC clock
agrees with it). -/
def civilFromDays (z0 : Int) : Int × Nat × Nat :=
  let z := z0 + 719468
  let era := Int.fdiv z 146097
  let doe := (z - era * 146097).toNat
  let yoe := (doe - doe / 1460 + doe / 36524 - doe / 146096) / 365
  let y := (yoe : Int) + era * 400
  let doy := doe - (365 * yoe + yoe / 4 - yoe / 100)
  let mp := (5 * doy + 2) / 153
  let d := doy - (153 * mp + 2) / 5 + 1
  let m := if mp < 10 then mp + 3 else mp - 9
  (if m ≤ 2 then y + 1 else y, m, d)

/-- Calendar date (year, month, day) of a record timestamp. -/
def dateTriple (ts : ℚ) : Int × Nat × Nat := civilFromDays (tsDays ts)

def natStr (n : Nat) : Str := (Nat.repr n).toList

def intStr (i : Int) : Str :=
  if i < 0 then '-' :: natStr i.natAbs else natStr i.natAbs

/-- Zero padding to two digits (`%m`, `%d`, `%H`, `%M`, `%S`). -/
def pad2 (n : Nat) : Str := if n < 10 then '0' :: natStr n else natStr n

/-- `strftime('%Y.%-m.%-d')`: no zero padding (line 328). -/
def fmtDateYmd (ts : ℚ) : Str :=
  let t := dateTriple ts
  intStr t.1 ++ '.' :: natStr t.2.1 ++ '.' :: natStr t.2.2

/-- `strftime('%Y-%m-%d %H:%M:%S')` (console and CSV date format). -/
def fmtDateFull (ts : ℚ) : Str :=
  let t := dateTriple ts
  let s := tsSecOfDay ts
  intStr t.1 ++ '-' :: pad2 t.2.1 ++ '-' :: pad2 t.2.2 ++
    ' ' :: pad2 (s / 3600) ++ ':' :: pad2 (s % 3600 / 60) ++ ':' :: pad2 (s % 60)

/-! ## Console renderer (notes preview, lines 294-307) -/

/-- Value of the `preview` variable of `print_releases` for a given notes
body: strip, split into lines, keep the first five, join; cut to 200
characters with an inline ellipsis when the joined preview is longer,
otherwise append the continuation marker when lines were dropped. -/
def notes_preview (notes : Str) : Str :=
  let s := pyStrip notes
  let lines := splitChar '\n' s
  let preview := joinWith ['\n'] (lines.take 5)
  if preview.length > 200 then preview.take 200 ++ "...".toList
  else if lines.length > 5 then preview ++ "\n   ...".toList
  else preview

/-- The indented lines actually printed for the preview (line 306-307). -/
def console_notes_lines (notes : Str) : List Str :=
  (splitChar '\n' (notes_preview notes)).map (fun l => "     ".toList ++ l)

/-! ## CSV renderer (lines 450-470) -/

/-- CSV column names: `notes` is appended exactly when the notes-fetch flag
is set for the run. -/
def csv_fieldnames (fetch_notes : Bool) : List Str :=
  (["repository", "version", "release_date", "url"].map String.toList) ++
    (if fetch_notes then ["notes".toList] else [])

/-- One CSV row, in column order.  `release['url'] or ''` renders a missing
URL as the empty string, `release.get('notes', '') or ''` renders a missing
or null notes value as the empty string. -/
def csv_row (fetch_notes : Bool) (r : Release) : List Str :=
  [r.repository, r.version, fmtDateFull r.release_date, r.url.getD []] ++
    (if fetch_notes then
      [match r.notes with | some (some s) => s | _ => []]
    else [])

/-! ## Markdown renderer (`export_to_markdown`, lines 315-376) -/

/-- Python truthiness of the optional URL (`if url:`). -/
def optTruthy : Option Str → Bool
  | some u => !(u = [])
  | none => false

/-- Insertion-ordered grouping (`defaultdict` keyed by the formatted date):
append the record to its group, creating the group at the end on first
sight. -/
def addToGroups (g : List (Str × List Release)) (k : Str) (r : Release) :
    List (Str × List Release) :=
  match g with
  | [] => [(k, [r])]
  | (k0, rs) :: rest =>
    if k0 = k then (k0, rs ++ [r]) :: rest else (k0, rs) :: addToGroups rest k r

def lookupGroup (g : List (Str × List Release)) (k : Str) : List Release :=
  match g with
  | [] => []
  | (k0, rs) :: rest => if k0 = k then rs else lookupGroup rest k

/-- Python string comparison (`<` on `str`): lexicographic by code point. -/
def strLt : Str → Str → Bool
  | [], [] => false
  | [], _ :: _ => true
  | _ :: _, [] => false
  | a :: as_, b :: bs => if a = b then strLt as_ bs else decide (a < b)

/-- Order used by `sorted(dates, reverse=True)`: `a` may precede `b` when
`b` is not lexicographically larger. -/
def strGE (a b : Str) : Prop := strLt a b = false

instance : DecidableRel strGE := fun a b =>
  inferInstanceAs (Decidable (strLt a b = false))

/-- Title bullet of one record (lines 347-351). -/
def md_title_line (r : Release) : Str :=
  let date := fmtDateYmd r.release_date
  if optTruthy r.url then
    "    - [".toList ++ r.repository ++ ' ' :: r.version ++ "](".toList ++
      r.url.getD [] ++ ") (".toList ++ date ++ [')']
  else
    "    - ".toList ++ r.repository ++ ' ' :: r.version ++ " (".toList ++
      date ++ [')']

/-- Notes sub-bullets of one record (lines 353-371): present only when the
`notes` key holds a truthy value; heading lines are dropped, list lines are
passed through, other lines get a list marker. -/
def md_note_lines (r : Release) : List Str :=
  match r.notes with
  | some (some s) =>
    if s = [] then [] else
    let notes := pyStrip s
    if notes = [] then [] else
    (splitChar '\n' notes).foldl (fun acc line =>
      let l := pyStrip line
      if l = [] then acc
      else if l.head? = some '#' then acc
      else if l.head? = some '-' || l.head? = some '*' then
        acc ++ ["      ".toList ++ l]
      else acc ++ ["      - ".toList ++ l]) []
  | _ => []

/-- All lines emitted for one record. -/
def md_release_lines (r : Release) : List Str :=
  md_title_line r :: md_note_lines r

/-- Lines of the Markdown file (lines 323-371): group by formatted date in
first-seen order, sort the date strings in descending string order, then
emit a date header, a fixed subtitle and the records of each group. -/
def export_to_markdown (releases : List Release) : List Str :=
  let groups := releases.foldl
    (fun g r => addToGroups g (fmtDateYmd r.release_date) r) []
  let sorted_dates := (groups.map Prod.fst).insertionSort strGE
  sorted_dates.foldl (fun acc d =>
    acc ++ ("- ".toList ++ d) :: ("  - リポジトリの更新リリース情報".toList) ::
      ((lookupGroup groups d).foldl (fun a r => a ++ md_release_lines r) [])) []

/-! ## Process exit behaviour (`main`, lines 381-486) -/

/-- Return value of `main()`: `none` models the bare `return` taken when
the Slack token is missing (lines 383-387), `some 1` the handler of a
caught exception (lines 478-480), `some 0` the normal returns.  `run`
abstracts the outcome of the `try` block. -/
def main_result (slack_token : Option Str) (run : Except Str Unit) : Option Nat :=
  match slack_token with
  | none => none
  | some _ =>
    match run with
    | .error _ => some 1
    | .ok _ => some 0

/-- `exit(main())`: `exit(None)` terminates the process with status 0,
`exit(n)` with status `n`. -/
def process_exit : Option Nat → Nat
  | none => 0
  | some n => n

/-! ## Lemmas about the parser's sort -/

lemma parse_perm (msgs : List Message) :
    (parse_release_notifications msgs).Perm
      ((msgs.filter (fun m => hasRelease m)).map extractRelease) :=
  List.perm_insertionSort releaseGE _

lemma parse_sorted (msgs : List Message) :
    (parse_release_notifications msgs).Sorted releaseGE :=
  List.sorted_insertionSort releaseGE _

/-- Stability of the sort: the records carrying any fixed timestamp appear
in the sorted output exactly in their pre-sort order. -/
lemma parse_stable (msgs : List Message) (t : ℚ) :
    (parse_release_notifications msgs).filter (fun r => decide (r.release_date = t)) =
      ((msgs.filter (fun m => hasRelease m)).map extractRelease).filter
        (fun r => decide (r.release_date = t)) := by
  set p : Release → Bool := fun r => decide (r.release_date = t) with hp
  set pre := (msgs.filter (fun m => hasRelease m)).map extractRelease with hpre
  have hall : ∀ r ∈ pre.filter p, p r = true := fun r hr => List.of_mem_filter hr
  have hpair : (pre.filter p).Pairwise releaseGE := by
    refine List.pairwise_of_forall_mem_list ?_
    intro a ha b hb
    have h1 := List.of_mem_filter ha
    have h2 := List.of_mem_filter hb
    simp only [hp, decide_eq_true_eq] at h1 h2
    show b.release_date ≤ a.release_date
    rw [h1, h2]
  have hsub : List.Sublist (pre.filter p) (parse_release_notifications msgs) :=
    List.sublist_insertionSort hpair (List.filter_sublist pre)
  have hsub2 := List.Sublist.filter p hsub
  rw [List.filter_eq_self.mpr hall] at hsub2
  have hperm : ((parse_release_notifications msgs).filter p).Perm (pre.filter p) :=
    (parse_perm msgs).filter p
  exact (hsub2.eq_of_length hperm.length_eq.symm).symm

/-! ## C1 -/

/-- C1: the parser yields exactly one record per message having some
attachment whose fallback contains `"New release"` and none for any other
message; qualification reads only attachment fallbacks (a message with the
blocks removed qualifies the same way), and without qualifying messages the
result is empty. -/
theorem parse_one_record_per_qualifying (msgs : List Message) :
    (parse_release_notifications msgs).Perm
        ((msgs.filter (fun m => hasRelease m)).map extractRelease) ∧
    (parse_release_notifications msgs).length =
        msgs.countP (fun m => hasRelease m) ∧
    (∀ m : Message, hasRelease { m with blocks := [] } = hasRelease m) ∧
    ((∀ m ∈ msgs, hasRelease m = false) → parse_release_notifications msgs = []) := by
  refine ⟨parse_perm msgs, ?_, fun m => rfl, ?_⟩
  · rw [(parse_perm msgs).length_eq, List.length_map,
      List.countP_eq_length_filter]
  · intro h
    have hnil : msgs.filter (fun m => hasRelease m) = [] :=
      List.filter_eq_nil_iff.mpr (fun m hm => by simp [h m hm])
    unfold parse_release_notifications
    rw [hnil]
    rfl

/-- Witness for C1: a message whose only `"New release"` text sits in a
block is dropped, so the result is empty. -/
theorem parse_one_record_per_qualifying_witness :
    parse_release_notifications
      [{ ts := none,
         attachments := [{ fallback := "hello".toList }],
         blocks := [{ type := "section".toList,
                      text := some ("New release in a/b".toList) }] }] = [] :=
  (parse_one_record_per_qualifying _).2.2.2 (by decide)

/-! ## C2 -/

/-- C2: the parser's output is sorted by release timestamp in descending
order (a record with a strictly smaller timestamp only appears at a larger
index), and records with equal timestamps keep their pre-sort relative
order. -/
theorem parse_sorted_descending (msgs : List Message) :
    (parse_release_notifications msgs).Sorted releaseGE ∧
    (∀ i j : Fin (parse_release_notifications msgs).length,
      ((parse_release_notifications msgs).get i).release_date <
          ((parse_release_notifications msgs).get j).release_date →
        (j : ℕ) < (i : ℕ)) ∧
    (∀ t : ℚ,
      (parse_release_notifications msgs).filter
          (fun r => decide (r.release_date = t)) =
        ((msgs.filter (fun m => hasRelease m)).map extractRelease).filter
          (fun r => decide (r.release_date = t))) := by
  refine ⟨parse_sorted msgs, ?_, parse_stable msgs⟩
  intro i j hlt
  by_contra hji
  push_neg at hji
  rcases lt_or_eq_of_le hji with hij | hij
  · have := (parse_sorted msgs).rel_get_of_lt (a := i) (b := j) hij
    exact absurd hlt (not_lt_of_le this)
  · have : i = j := Fin.ext hij
    subst this
    exact lt_irrefl _ hlt

/-- Witness messages for C2 and C10. -/
def msgEarly : Message :=
  { ts := some 100, attachments := [{ fallback := "New release: one".toList }] }

def msgLate : Message :=
  { ts := some 200, attachments := [{ fallback := "New release: two".toList }] }

/-- Witness for C2: with two qualifying messages at timestamps 100 < 200,
the record at index 1 carries the smaller timestamp, so the theorem places
index 0 before it. -/
theorem parse_sorted_descending_witness :
    (0 : ℕ) < 1 :=
  (parse_sorted_descending [msgEarly, msgLate]).2.1
    ⟨1, by decide⟩ ⟨0, by decide⟩ (by decide)

/-! ## C3 -/

/-- Record dated 2025-10-01 (timestamp 1759276800). -/
def recOct : Release :=
  { repository := "a/b".toList, version := "v1".toList,
    release_date := 1759276800, url := none }

/-- Record dated 2025-09-30 (timestamp 1759190400). -/
def recSep : Release :=
  { repository := "c/d".toList, version := "v2".toList,
    release_date := 1759190400, url := none }

/-- C3 fails on the code: the Markdown renderer orders the groups by
descending string comparison of the unpadded date strings, and for
2025-10-01 versus 2025-09-30 the group of the earlier calendar day
2025-09-30 comes first because the string `"2025.9.30"` compares larger
than `"2025.10.1"`.  The group headers sit at indices 0 and 3 of the
output, so the later calendar date does not precede the earlier one. -/
theorem export_markdown_group_order_bug :
    dateTriple recOct.release_date = (2025, 10, 1) ∧
    dateTriple recSep.release_date = (2025, 9, 30) ∧
    export_to_markdown [recOct, recSep] =
      ["- 2025.9.30", "  - リポジトリの更新リリース情報",
       "    - c/d v2 (2025.9.30)",
       "- 2025.10.1", "  - リポジトリの更新リリース情報",
       "    - a/b v1 (2025.10.1)"].map String.toList := by
  refine ⟨by decide, by decide, ?_⟩
  decide

/-! ## C4 -/

/-- Message of the worked example of the specification. -/
def msgAcme : Message :=
  { ts := some 1759276800,
    attachments :=
      [{ fallback := "New release: acme/widget v2.3.1".toList,
         title_link :=
           "https://github.com/acme/widget/releases/tag/v2.3.1|label>extra".toList }] }

/-- Same message except that the title link lacks the `/releases/`
substring, so the title link is not consulted as a URL source. -/
def msgAcmeNoRel : Message :=
  { ts := some 1759276800,
    attachments :=
      [{ fallback := "New release: acme/widget v2.3.1".toList,
         title_link := "https://github.com/acme/widget/tag/v2.3.1".toList }] }

/-- C4: on the worked example the parser returns repository
`acme/widget`, version `v2.3.1` and the release URL obtained from the
title link truncated at the first `|` or `>`; when the title link lacks
one of the two required substrings it is not used and no URL is found. -/
theorem parse_worked_example :
    parse_release_notifications [msgAcme] =
      [{ repository := "acme/widget".toList,
         version := "v2.3.1".toList,
         release_date := 1759276800,
         url := some "https://github.com/acme/widget/releases/tag/v2.3.1".toList,
         notes := none }] ∧
    parse_release_notifications [msgAcmeNoRel] =
      [{ repository := "Unknown".toList,
         version := "v2.3.1".toList,
         release_date := 1759276800,
         url := none,
         notes := none }] := by
  constructor
  · decide
  · decide

/-! ## C8 -/

/-- C8 fails on the code for the missing-credential case: `main` prints
the error text but then executes a bare `return`, so `exit(main())`
becomes `exit(None)` and the process terminates with status 0, not with a
non-zero status.  The exception and success paths do return 1 and 0. -/
theorem missing_token_exit_status :
    (∀ run : Except Str Unit, process_exit (main_result none run) = 0) ∧
    (∀ tok e, process_exit (main_result (some tok) (Except.error e)) = 1) ∧
    (∀ tok, process_exit (main_result (some tok) (Except.ok ())) = 0) :=
  ⟨fun _ => rfl, fun _ _ => rfl, fun _ => rfl⟩

/-! ## C5 -/

lemma extractRelease_notes (m : Message) : (extractRelease m).notes = none := rfl

lemma md_note_lines_of_none {r : Release} (h : r.notes = none) :
    md_note_lines r = [] := by
  unfold md_note_lines
  rw [h]

/-- C5: the presence of the `notes` key encodes whether enrichment was
attempted.  With the flag disabled, every record of a scan lacks the key,
the CSV has neither a notes column nor a notes cell (rows have exactly the
four base columns, whatever the URL), and the Markdown renderer emits no
notes sub-bullets for such records; with the flag enabled every record of
a scan carries the key, holding the fetch result for records with a URL
and null otherwise. -/
theorem notes_key_encodes_enrichment :
    (∀ (http : Str → HttpResult) (msgs : List Message),
      ∀ r ∈ scan_releases http false msgs,
        r.notes = none ∧ md_note_lines r = []) ∧
    ("notes".toList ∉ csv_fieldnames false) ∧
    (∀ r : Release, (csv_row false r).length = 4) ∧
    ("notes".toList ∈ csv_fieldnames true) ∧
    (∀ (http : Str → HttpResult) (msgs : List Message),
      ∀ r ∈ scan_releases http true msgs,
        r.notes = some (r.url.bind (fetch_release_notes http))) := by
  refine ⟨?_, by decide, fun r => by simp [csv_row], by decide, ?_⟩
  · intro http msgs r hr
    have hr0 : r ∈ parse_release_notifications msgs := by
      simpa [scan_releases, scan_enrich] using hr
    have := (parse_perm msgs).mem_iff.mp hr0
    obtain ⟨m, _, hm⟩ := List.mem_map.mp this
    have hn : r.notes = none := hm ▸ extractRelease_notes m
    exact ⟨hn, md_note_lines_of_none hn⟩
  · intro http msgs r hr
    unfold scan_releases scan_enrich at hr
    by_cases h : parse_release_notifications msgs = []
    · rw [h] at hr
      simp at hr
    · rw [if_pos (by simp [h])] at hr
      obtain ⟨r0, _, hr0⟩ := List.mem_map.mp hr
      rcases hu : r0.url with _ | u
      · rw [hu] at hr0
        rw [← hr0]
        simp [hu]
      · rw [hu] at hr0
        rw [← hr0]
        simp [hu]

def httpDown : Str → HttpResult := fun _ => HttpResult.failure

/-- Record produced by the enriched scan of the worked example when the
HTTP layer fails. -/
def recAcmeEnriched : Release :=
  { repository := "acme/widget".toList, version := "v2.3.1".toList,
    release_date := 1759276800,
    url := some "https://github.com/acme/widget/releases/tag/v2.3.1".toList,
    notes := some none }

/-- Witness for C5: the record of an enabled-flag scan carries the `notes`
key even though the fetch failed. -/
theorem notes_key_encodes_enrichment_witness :
    recAcmeEnriched.notes =
      some (recAcmeEnriched.url.bind (fetch_release_notes httpDown)) :=
  notes_key_encodes_enrichment.2.2.2.2 httpDown [msgAcme] recAcmeEnriched
    (by decide)

/-! ## C6 -/

lemma takeWhile_all {α : Type} (p : α → Bool) (xs : List α)
    (h : ∀ x ∈ xs, p x = true) : xs.takeWhile p = xs := by
  induction xs with
  | nil => rfl
  | cons a l ih =>
    rw [List.takeWhile_cons, if_pos (h a (by simp))]
    rw [ih (fun x hx => h x (by simp [hx]))]

lemma takeWhile_append_stop {α : Type} (p : α → Bool) (xs : List α) (y : α)
    (ys : List α) (h : ∀ x ∈ xs, p x = true) (hy : p y = false) :
    (xs ++ y :: ys).takeWhile p = xs := by
  induction xs with
  | nil => simp [List.takeWhile_cons, hy]
  | cons a l ih =>
    rw [List.cons_append, List.takeWhile_cons, if_pos (h a (by simp))]
    rw [ih (fun x hx => h x (by simp [hx]))]

/-- C6: the notes fetcher is total and degrades every failure to an absent
result: no URL-shape match, an HTTP failure (timeout or exception), a
non-200 status or an empty body all yield `none`, while status 200 with a
non-empty body yields exactly that body; the tag is stripped of a trailing
query string or fragment before the API endpoint is built. -/
theorem fetch_release_notes_contract :
    (∀ (http : Str → HttpResult) (url : Str), findNotesUrl url = none →
      fetch_release_notes http url = none) ∧
    (∀ (http : Str → HttpResult) (url o r t : Str),
      findNotesUrl url = some (o, r, t) →
      (http (api_url o r t) = HttpResult.failure →
        fetch_release_notes http url = none) ∧
      (∀ (st : Nat) (b : Str), http (api_url o r t) = HttpResult.response st b →
        (st ≠ 200 → fetch_release_notes http url = none) ∧
        (b = [] → fetch_release_notes http url = none) ∧
        (st = 200 → b ≠ [] → fetch_release_notes http url = some b))) ∧
    (∀ t q : Str, '?' ∉ t → '#' ∉ t → cleanTag (t ++ '?' :: q) = pyStrip t) ∧
    (∀ t q : Str, '?' ∉ t → '?' ∉ q → '#' ∉ t →
      cleanTag (t ++ '#' :: q) = pyStrip t) := by
  refine ⟨?_, ?_, ?_, ?_⟩
  · intro http url h
    unfold fetch_release_notes
    by_cases hu : url = []
    · rw [if_pos hu]
    · rw [if_neg hu, h]
  · intro http url o r t h
    have hu : ¬url = [] := by
      intro hnil
      rw [hnil] at h
      exact Option.noConfusion (h.symm.trans rfl)
    have key : fetch_release_notes http url =
        (match http (api_url o r t) with
         | HttpResult.failure => none
         | HttpResult.response status body =>
           if status = 200 then (if body ≠ [] then some body else none)
           else none) := by
      unfold fetch_release_notes
      rw [if_neg hu, h]
    constructor
    · intro hh
      rw [key, hh]
    · intro st b hh
      refine ⟨?_, ?_, ?_⟩
      · intro hst
        rw [key, hh]
        simp [hst]
      · intro hb
        rw [key, hh, hb]
        simp
      · intro hst hb
        rw [key, hh]
        simp [hst, hb]
  · intro t q ht ht2
    unfold cleanTag takeUntil
    rw [takeWhile_append_stop _ t '?' q
      (fun x hx => by simp; exact fun he => ht (he ▸ hx)) (by simp)]
    rw [takeWhile_all _ t (fun x hx => by simp; exact fun he => ht2 (he ▸ hx))]
  · intro t q ht htq ht2
    unfold cleanTag takeUntil
    rw [takeWhile_all (fun x => x ≠ '?') (t ++ '#' :: q) ?_]
    · rw [takeWhile_append_stop _ t '#' q
        (fun x hx => by simp; exact fun he => ht2 (he ▸ hx)) (by simp)]
    · intro x hx
      simp only [List.mem_append, List.mem_cons] at hx
      rcases hx with hx | hx | hx
      · simp; exact fun he => ht (he ▸ hx)
      · simp [hx]
      · simp; exact fun he => htq (he ▸ hx)

def http200 : Str → HttpResult :=
  fun _ => HttpResult.response 200 ("Notes body".toList)

def urlTagQuery : Str :=
  "https://github.com/acme/widget/releases/tag/v2.3.1?tab=files".toList

/-- Witness for C6: a matching URL with a 200 response and a non-empty
body yields exactly that body. -/
theorem fetch_release_notes_contract_witness :
    fetch_release_notes http200 urlTagQuery = some ("Notes body".toList) :=
  ((fetch_release_notes_contract.2.1 http200 urlTagQuery
      ("acme".toList) ("widget".toList) ("v2.3.1?tab=files".toList)
      (by decide)).2 200 ("Notes body".toList) rfl).2.2 rfl (by decide)

/-! ## C7 -/

lemma splitChar_of_not_mem {c : Char} {xs : Str} (h : c ∉ xs) :
    splitChar c xs = [xs] := by
  induction xs with
  | nil => rfl
  | cons a l ih =>
    have ha : ¬a = c := fun he => h (he ▸ List.mem_cons_self a l)
    have ihl := ih (fun hc => h (List.mem_cons_of_mem a hc))
    simp [splitChar, ha, ihl]

lemma splitChar_append_cons {c : Char} {xs rest : Str} (h : c ∉ xs) :
    splitChar c (xs ++ c :: rest) = xs :: splitChar c rest := by
  induction xs with
  | nil => simp [splitChar]
  | cons a l ih =>
    have ha : ¬a = c := fun he => h (he ▸ List.mem_cons_self a l)
    have ihl := ih (fun hc => h (List.mem_cons_of_mem a hc))
    simp [splitChar, ha, ihl]

lemma splitChar_joinWith (c : Char) (ls : List Str) (hne : ls ≠ [])
    (h : ∀ l ∈ ls, c ∉ l) :
    splitChar c (joinWith [c] ls) = ls := by
  induction ls with
  | nil => exact absurd rfl hne
  | cons x xs ih =>
    cases xs with
    | nil => simp [joinWith, splitChar_of_not_mem (h x (by simp))]
    | cons y ys =>
      have hj : joinWith [c] (x :: y :: ys) = x ++ c :: joinWith [c] (y :: ys) := by
        simp [joinWith]
      rw [hj, splitChar_append_cons (h x (by simp))]
      rw [ih (by simp) (fun l hl => h l (List.mem_cons_of_mem x hl))]

/-- C7 (amended): the console notes preview is capped at 5 lines or at 200
characters of the newline-joined preview, whichever triggers first: a
6-line body whose lines 1-5 joined with newlines make at most 200
characters renders those five lines followed by the continuation marker,
while a 2-line body whose first line alone exceeds 200 characters renders
the first 200 characters followed by an inline ellipsis. -/
theorem notes_preview_caps (l1 l2 l3 l4 l5 l6 : Str)
    (hnl : ∀ l ∈ [l1, l2, l3, l4, l5, l6], '\n' ∉ l)
    (hstrip : pyStrip (joinWith ['\n'] [l1, l2, l3, l4, l5, l6]) =
      joinWith ['\n'] [l1, l2, l3, l4, l5, l6]) :
    ((joinWith ['\n'] [l1, l2, l3, l4, l5]).length ≤ 200 →
      notes_preview (joinWith ['\n'] [l1, l2, l3, l4, l5, l6]) =
        joinWith ['\n'] [l1, l2, l3, l4, l5] ++ "\n   ...".toList) ∧
    (∀ m1 m2 : Str, '\n' ∉ m1 → '\n' ∉ m2 →
      pyStrip (joinWith ['\n'] [m1, m2]) = joinWith ['\n'] [m1, m2] →
      200 < m1.length →
      notes_preview (joinWith ['\n'] [m1, m2]) =
        m1.take 200 ++ "...".toList) := by
  constructor
  · intro h200
    have hsplit := splitChar_joinWith '\n' [l1, l2, l3, l4, l5, l6] (by simp) hnl
    unfold notes_preview
    simp only [hstrip, hsplit]
    rw [show List.take 5 [l1, l2, l3, l4, l5, l6] = [l1, l2, l3, l4, l5] from rfl]
    rw [if_neg (by omega), if_pos (by simp)]
  · intro m1 m2 h1 h2 hstrip2 hlen
    have hsplit2 := splitChar_joinWith '\n' [m1, m2] (by simp) (by
      intro l hl
      simp only [List.mem_cons, List.not_mem_nil, or_false] at hl
      rcases hl with hl | hl
      · exact hl ▸ h1
      · exact hl ▸ h2)
    have hj : joinWith ['\n'] [m1, m2] = m1 ++ '\n' :: m2 := by
      simp [joinWith]
    unfold notes_preview
    simp only [hstrip2, hsplit2]
    rw [show List.take 5 [m1, m2] = [m1, m2] from rfl, hj]
    have hlen2 : (m1 ++ '\n' :: m2).length > 200 := by
      simp only [List.length_append, List.length_cons]
      omega
    rw [if_pos hlen2]
    rw [List.take_append_of_le_length (le_of_lt hlen)]

/-- Line of 40 characters. -/
def cexLine : Str := List.replicate 40 'a'

/-- Six-line notes body whose first five lines hold 200 characters in
total (204 once joined with newlines). -/
def cexNotes : Str :=
  joinWith ['\n'] [cexLine, cexLine, cexLine, cexLine, cexLine, ['x']]

set_option maxRecDepth 8192 in
/-- Counterexample for C7 as stated: a 6-line notes body whose lines 1-5
total exactly 200 characters is not rendered as lines 1-5 plus the
continuation marker, because the newline separators push the joined
preview to 204 characters and the character cap triggers instead. -/
theorem notes_preview_claim_counterexample :
    (splitChar '\n' cexNotes).length = 6 ∧
    (((splitChar '\n' cexNotes).take 5).map List.length).sum = 200 ∧
    notes_preview cexNotes ≠
      joinWith ['\n'] [cexLine, cexLine, cexLine, cexLine, cexLine] ++
        "\n   ...".toList ∧
    notes_preview cexNotes =
      (joinWith ['\n'] [cexLine, cexLine, cexLine, cexLine, cexLine]).take 200 ++
        "...".toList := by decide

/-- Witness for C7 (amended), on a short six-line body. -/
theorem notes_preview_caps_witness :
    notes_preview (joinWith ['\n']
        ["L1".toList, "L2".toList, "L3".toList, "L4".toList, "L5".toList,
         "L6".toList]) =
      joinWith ['\n']
        ["L1".toList, "L2".toList, "L3".toList, "L4".toList, "L5".toList] ++
        "\n   ...".toList :=
  (notes_preview_caps ("L1".toList) ("L2".toList) ("L3".toList)
    ("L4".toList) ("L5".toList) ("L6".toList) (by decide) (by decide)).1
    (by decide)

/-! ## C9 -/

lemma isPrefixOf_append_self (l r : Str) : l.isPrefixOf (l ++ r) = true := by
  induction l with
  | nil => cases r <;> rfl
  | cons a l2 ih => simp [List.isPrefixOf, ih]

/-- Every successful `url_pattern` match decomposes into the literal parts
and three non-empty character-class runs. -/
lemma matchUrlAt_shape {s u : Str} (h : matchUrlAt s = some u) :
    ∃ o n t : Str,
      u = ghUrlPre ++ o ++ '/' :: n ++ relTagLit ++ t ∧
      o ≠ [] ∧ n ≠ [] ∧ t ≠ [] ∧
      (∀ c ∈ o, isOwnerChar c = true) ∧ (∀ c ∈ n, isNameChar c = true) ∧
      (∀ c ∈ t, isNameChar c = true) := by
  simp only [matchUrlAt] at h
  split at h
  · split at h
    · exact absurd h (by simp)
    · split at h
      · split at h
        · exact absurd h (by simp)
        · split at h
          · split at h
            · exact absurd h (by simp)
            · refine ⟨_, _, _, (Option.some.inj h).symm, by assumption,
                by assumption, by assumption, ?_, ?_, ?_⟩
              · exact fun c hc => List.mem_takeWhile_imp hc
              · exact fun c hc => List.mem_takeWhile_imp hc
              · exact fun c hc => List.mem_takeWhile_imp hc
          · exact absurd h (by simp)
      · exact absurd h (by simp)
  · exact absurd h (by simp)

lemma findUrl_shape {s u : Str} (h : findUrl s = some u) :
    ∃ o n t : Str,
      u = ghUrlPre ++ o ++ '/' :: n ++ relTagLit ++ t ∧
      o ≠ [] ∧ n ≠ [] ∧ t ≠ [] ∧
      (∀ c ∈ o, isOwnerChar c = true) ∧ (∀ c ∈ n, isNameChar c = true) ∧
      (∀ c ∈ t, isNameChar c = true) := by
  induction s with
  | nil => exact absurd h (by simp [findUrl])
  | cons c cs ih =>
    rcases hm : matchUrlAt (c :: cs) with _ | g
    · rw [findUrl, hm] at h
      exact ih h
    · rw [findUrl, hm] at h
      exact (Option.some.inj h) ▸ matchUrlAt_shape hm

/-- Any value held by the URL slot of `extractMatches` is the result of
some `url_pattern` search. -/
lemma extractMatches_url_from_findUrl (m : Message) {u : Str}
    (h : (extractMatches m).2.2 = some u) : ∃ s, findUrl s = some u := by
  have hstepA : ∀ (st : Option Str × Option Str × Option Str) (a : Attachment),
      (∀ v, st.2.2 = some v → ∃ s, findUrl s = some v) →
      (∀ v, (stepAttach st a).2.2 = some v → ∃ s, findUrl s = some v) := by
    intro st a hinv v hv
    simp only [stepAttach] at hv
    rcases h1 : st.2.2 with _ | g
    · rw [h1] at hv
      rcases h2 : findUrl (searchText a) with _ | g2
      · rw [h2] at hv
        simp only [firstSome] at hv
        split at hv
        · exact ⟨cleanTitleLink a.title_link, hv⟩
        · exact absurd hv (by simp)
      · rw [h2] at hv
        simp only [firstSome] at hv
        exact ⟨searchText a, h2.trans hv⟩
    · rw [h1] at hv
      simp only [firstSome] at hv
      exact hinv v (h1.trans hv)
  have hstepB : ∀ (st : Option Str × Option Str × Option Str) (b : Block),
      (∀ v, st.2.2 = some v → ∃ s, findUrl s = some v) →
      (∀ v, (stepBlock st b).2.2 = some v → ∃ s, findUrl s = some v) := by
    intro st b hinv v hv
    simp only [stepBlock] at hv
    split at hv
    · split at hv
      · rcases h1 : st.2.2 with _ | g
        · rw [h1] at hv
          simp only [firstSome] at hv
          exact ⟨_, hv⟩
        · rw [h1] at hv
          simp only [firstSome] at hv
          exact hinv v (h1.trans hv)
      · exact hinv v hv
    · exact hinv v hv
  have hfoldA : ∀ (l : List Attachment) (st : Option Str × Option Str × Option Str),
      (∀ v, st.2.2 = some v → ∃ s, findUrl s = some v) →
      (∀ v, (l.foldl stepAttach st).2.2 = some v → ∃ s, findUrl s = some v) := by
    intro l
    induction l with
    | nil => intro st hst; simpa using hst
    | cons a l2 ih =>
      intro st hst
      rw [List.foldl_cons]
      exact ih _ (hstepA st a hst)
  have hfoldB : ∀ (l : List Block) (st : Option Str × Option Str × Option Str),
      (∀ v, st.2.2 = some v → ∃ s, findUrl s = some v) →
      (∀ v, (l.foldl stepBlock st).2.2 = some v → ∃ s, findUrl s = some v) := by
    intro l
    induction l with
    | nil => intro st hst; simpa using hst
    | cons b l2 ih =>
      intro st hst
      rw [List.foldl_cons]
      exact ih _ (hstepB st b hst)
  unfold extractMatches at h
  exact hfoldB m.blocks _ (hfoldA m.attachments _ (by simp)) u h

lemma matchRepoUrlAt_head_ne {c : Char} {cs : Str} (hc : c ≠ 'g') :
    matchRepoUrlAt (c :: cs) = none := by
  have hgc : ('g' == c) = false := beq_eq_false_iff_ne.mpr (fun he => hc he.symm)
  have hb : ghDomLit.isPrefixOf (c :: cs) = false := by
    rw [show ghDomLit = 'g' :: "ithub.com/".toList from by decide]
    show ('g' == c && ("ithub.com/".toList).isPrefixOf cs) = false
    rw [hgc, Bool.false_and]
  unfold matchRepoUrlAt
  rw [if_neg (by simp [hb])]

lemma findRepoUrl_cons_of_none {c : Char} {cs : Str}
    (h : matchRepoUrlAt (c :: cs) = none) :
    findRepoUrl (c :: cs) = findRepoUrl cs := by
  rw [findRepoUrl, h]

lemma matchRepoUrlAt_on_url (o n t : Str) (ho : o ≠ []) (hn : n ≠ [])
    (hoc : ∀ c ∈ o, isOwnerChar c = true) (hnc : ∀ c ∈ n, isNameChar c = true) :
    matchRepoUrlAt (ghDomLit ++ (o ++ '/' :: (n ++ (relTagLit ++ t)))) =
      some (o ++ '/' :: n) := by
  have e1 : (ghDomLit ++ (o ++ '/' :: (n ++ (relTagLit ++ t)))).drop
      ghDomLit.length = o ++ '/' :: (n ++ (relTagLit ++ t)) :=
    List.drop_left ghDomLit _
  have e2 : (o ++ '/' :: (n ++ (relTagLit ++ t))).takeWhile isOwnerChar = o :=
    takeWhile_append_stop _ _ _ _ hoc (by decide)
  have e3 : (o ++ '/' :: (n ++ (relTagLit ++ t))).drop o.length =
      '/' :: (n ++ (relTagLit ++ t)) := List.drop_left o _
  have e4 : (n ++ (relTagLit ++ t)).takeWhile isNameChar = n := by
    rw [show relTagLit ++ t = '/' :: ("releases/tag/".toList ++ t) from by
      rw [show relTagLit = '/' :: "releases/tag/".toList from by decide]
      simp]
    exact takeWhile_append_stop _ _ _ _ hnc (by decide)
  simp only [matchRepoUrlAt, isPrefixOf_append_self, if_true, e1, e2, e3, e4]
  rw [if_neg (by simpa using ho), if_neg (by simpa using hn)]

lemma findRepoUrl_on_url (o n t : Str) (ho : o ≠ []) (hn : n ≠ [])
    (hoc : ∀ c ∈ o, isOwnerChar c = true) (hnc : ∀ c ∈ n, isNameChar c = true) :
    findRepoUrl (ghUrlPre ++ o ++ '/' :: n ++ relTagLit ++ t) =
      some (o ++ '/' :: n) := by
  have hcons : ghUrlPre ++ o ++ '/' :: n ++ relTagLit ++ t =
      'h' :: 't' :: 't' :: 'p' :: 's' :: ':' :: '/' :: '/' ::
        (ghDomLit ++ (o ++ '/' :: (n ++ (relTagLit ++ t)))) := by
    rw [show ghUrlPre = ['h', 't', 't', 'p', 's', ':', '/', '/'] ++ ghDomLit
      from by decide]
    simp
  rw [hcons]
  rw [findRepoUrl_cons_of_none (matchRepoUrlAt_head_ne (by decide)),
    findRepoUrl_cons_of_none (matchRepoUrlAt_head_ne (by decide)),
    findRepoUrl_cons_of_none (matchRepoUrlAt_head_ne (by decide)),
    findRepoUrl_cons_of_none (matchRepoUrlAt_head_ne (by decide)),
    findRepoUrl_cons_of_none (matchRepoUrlAt_head_ne (by decide)),
    findRepoUrl_cons_of_none (matchRepoUrlAt_head_ne (by decide)),
    findRepoUrl_cons_of_none (matchRepoUrlAt_head_ne (by decide)),
    findRepoUrl_cons_of_none (matchRepoUrlAt_head_ne (by decide))]
  have hdom : ghDomLit ++ (o ++ '/' :: (n ++ (relTagLit ++ t))) =
      'g' :: ("ithub.com/".toList ++ (o ++ '/' :: (n ++ (relTagLit ++ t)))) := by
    rw [show ghDomLit = 'g' :: "ithub.com/".toList from by decide]
    simp
  rw [hdom, findRepoUrl, ← hdom]
  rw [matchRepoUrlAt_on_url o n t ho hn hoc hnc]

/-- C9: when no source yields a direct `in`/`for` repository match but a
release-tag URL was found, the repository is the `owner/name` written in
the URL path; when neither exists the repository defaults to `"Unknown"`,
and independently the version defaults to `"Unknown"` when unmatched. -/
theorem repository_from_url_fallback :
    (∀ (m : Message) (u : Str),
      (extractMatches m).1 = none → (extractMatches m).2.2 = some u →
      ∃ o n t : Str,
        u = ghUrlPre ++ o ++ '/' :: n ++ relTagLit ++ t ∧
        (extractRelease m).repository = o ++ '/' :: n) ∧
    (∀ m : Message,
      (extractMatches m).1 = none → (extractMatches m).2.2 = none →
      (extractRelease m).repository = "Unknown".toList) ∧
    (∀ m : Message,
      (extractMatches m).2.1 = none →
      (extractRelease m).version = "Unknown".toList) := by
  refine ⟨?_, ?_, ?_⟩
  · intro m u h1 h2
    obtain ⟨s, hs⟩ := extractMatches_url_from_findUrl m h2
    obtain ⟨o, n, t, hu, ho, hn, ht, hoc, hnc, htc⟩ := findUrl_shape hs
    refine ⟨o, n, t, hu, ?_⟩
    simp only [extractRelease, h1, h2]
    rw [hu, findRepoUrl_on_url o n t ho hn hoc hnc]
    rfl
  · intro m h1 h2
    simp only [extractRelease, h1, h2]
    rfl
  · intro m h
    simp only [extractRelease, h]
    rfl

/-- Witness for C9: on the worked example no direct repository match
exists, and the repository is read off the matched URL. -/
theorem repository_from_url_fallback_witness :
    ∃ o n t : Str,
      ("https://github.com/acme/widget/releases/tag/v2.3.1".toList : Str) =
        ghUrlPre ++ o ++ '/' :: n ++ relTagLit ++ t ∧
      (extractRelease msgAcme).repository = o ++ '/' :: n :=
  repository_from_url_fallback.1 msgAcme
    ("https://github.com/acme/widget/releases/tag/v2.3.1".toList)
    (by decide) (by decide)

/-! ## C10 -/

def msgNoTs : Message :=
  { ts := none, attachments := [{ fallback := "New release: zero".toList }] }

/-- C10: a qualifying message without a `ts` field still yields a record,
its timestamp defaulting to 0 (the Unix epoch), and in the sorted output a
zero-timestamp record always sits after every record with a positive
timestamp. -/
theorem missing_ts_defaults_to_epoch :
    (∀ m : Message, m.ts = none → (extractRelease m).release_date = 0) ∧
    (∀ (msgs : List Message) (m : Message), m ∈ msgs → hasRelease m = true →
      extractRelease m ∈ parse_release_notifications msgs) ∧
    (∀ (msgs : List Message)
        (i j : Fin (parse_release_notifications msgs).length),
      ((parse_release_notifications msgs).get i).release_date = 0 →
      0 < ((parse_release_notifications msgs).get j).release_date →
      (j : ℕ) < (i : ℕ)) := by
  refine ⟨?_, ?_, ?_⟩
  · intro m h
    simp [extractRelease, h]
  · intro msgs m hm hq
    unfold parse_release_notifications
    rw [List.mem_insertionSort]
    exact List.mem_map.mpr ⟨m, List.mem_filter.mpr ⟨hm, by simp [hq]⟩, rfl⟩
  · intro msgs i j h0 hpos
    by_contra hji
    push_neg at hji
    rcases lt_or_eq_of_le hji with hij | hij
    · have hrel := (parse_sorted msgs).rel_get_of_lt (a := i) (b := j) hij
      have hle : ((parse_release_notifications msgs).get j).release_date ≤
          ((parse_release_notifications msgs).get i).release_date := hrel
      rw [h0] at hle
      exact absurd hpos (not_lt_of_le hle)
    · have : i = j := Fin.ext hij
      subst this
      rw [h0] at hpos
      exact lt_irrefl _ hpos

/-- Witness for C10: a qualifying message without `ts` produces a record
dated 0, and it lands at index 1, after the timestamp-100 record. -/
theorem missing_ts_defaults_to_epoch_witness :
    (extractRelease msgNoTs).release_date = 0 ∧
    extractRelease msgNoTs ∈ parse_release_notifications [msgEarly, msgNoTs] ∧
    (0 : ℕ) < 1 :=
  ⟨missing_ts_defaults_to_epoch.1 msgNoTs rfl,
   missing_ts_defaults_to_epoch.2.1 [msgEarly, msgNoTs] msgNoTs (by decide)
     (by decide),
   missing_ts_defaults_to_epoch.2.2 [msgEarly, msgNoTs] ⟨1, by decide⟩
     ⟨0, by decide⟩ (by decide) (by decide)⟩

